import Mathlib

/-!
# httpit: the terminal dashboard of the load tester (`pit/tui.go`)

A shallow embedding of the status-code counters (`tui.appendCode`), the
Bubble Tea update step (`tui.Update`), the progress fraction
(`tui.writeProcessBar`), the statistics (`rpsResult`, `latencyResult`) and
`formatThroughput`, with the properties the specification states about them.

Go `int` and `int64` values are integers (`Int`); the `int64` counters wrap
at 64 bits. Go `float64` values are the binary64 model `F64` below: signed
zeros, subnormals, infinities and NaN, every operation rounded to nearest,
ties to even.
-/

namespace Pit

/-! ## Machine integers -/

/-- Two's-complement wrap of an integer into the `int64` range. -/
def wrap64 (z : Int) : Int := (z + 2 ^ 63) % 2 ^ 64 - 2 ^ 63

/-- The Go statement `x++` on an `int64`. -/
def inc64 (x : Int) : Int := wrap64 (x + 1)

/-! ## The model `tui` -/

/-- The fields of the Go struct `tui` that the modelled methods read or write.
`progressBarWidth` stands for `t.progressBar.Width`. The reader, writer,
byte buffer, error map, mutex, url and connection count play no part in the
modelled methods. -/
structure tui where
  reqs : Int := 0
  elapsed : Int := 0
  code1xx : Int := 0
  code2xx : Int := 0
  code3xx : Int := 0
  code301 : Int := 0
  code302 : Int := 0
  code303 : Int := 0
  code304 : Int := 0
  code307 : Int := 0
  code308 : Int := 0
  code4xx : Int := 0
  code400 : Int := 0
  code401 : Int := 0
  code403 : Int := 0
  code404 : Int := 0
  code405 : Int := 0
  code5xx : Int := 0
  code500 : Int := 0
  code502 : Int := 0
  code503 : Int := 0
  code504 : Int := 0
  code505 : Int := 0
  codeOthers : Int := 0
  count : Int := 0
  duration : Int := 0
  progressBarWidth : Int := 0
  quitting : Bool := false
  done : Bool := false

/-- The sink of `newTui()`: every counter is zero, both flags are false. -/
def newTui : tui := {}

/-! The Go statements `t.codeNNN++`, one for each counter. -/

/-- The statement `t.code1xx++`. -/
def tui.incCode1xx (t : tui) : tui := { t with code1xx := inc64 t.code1xx }

/-- The statement `t.code2xx++`. -/
def tui.incCode2xx (t : tui) : tui := { t with code2xx := inc64 t.code2xx }

/-- The statement `t.code3xx++`. -/
def tui.incCode3xx (t : tui) : tui := { t with code3xx := inc64 t.code3xx }

/-- The statement `t.code301++`. -/
def tui.incCode301 (t : tui) : tui := { t with code301 := inc64 t.code301 }

/-- The statement `t.code302++`. -/
def tui.incCode302 (t : tui) : tui := { t with code302 := inc64 t.code302 }

/-- The statement `t.code303++`. -/
def tui.incCode303 (t : tui) : tui := { t with code303 := inc64 t.code303 }

/-- The statement `t.code304++`. -/
def tui.incCode304 (t : tui) : tui := { t with code304 := inc64 t.code304 }

/-- The statement `t.code307++`. -/
def tui.incCode307 (t : tui) : tui := { t with code307 := inc64 t.code307 }

/-- The statement `t.code308++`. -/
def tui.incCode308 (t : tui) : tui := { t with code308 := inc64 t.code308 }

/-- The statement `t.code4xx++`. -/
def tui.incCode4xx (t : tui) : tui := { t with code4xx := inc64 t.code4xx }

/-- The statement `t.code400++`. -/
def tui.incCode400 (t : tui) : tui := { t with code400 := inc64 t.code400 }

/-- The statement `t.code401++`. -/
def tui.incCode401 (t : tui) : tui := { t with code401 := inc64 t.code401 }

/-- The statement `t.code403++`. -/
def tui.incCode403 (t : tui) : tui := { t with code403 := inc64 t.code403 }

/-- The statement `t.code404++`. -/
def tui.incCode404 (t : tui) : tui := { t with code404 := inc64 t.code404 }

/-- The statement `t.code405++`. -/
def tui.incCode405 (t : tui) : tui := { t with code405 := inc64 t.code405 }

/-- The statement `t.code5xx++`. -/
def tui.incCode5xx (t : tui) : tui := { t with code5xx := inc64 t.code5xx }

/-- The statement `t.code500++`. -/
def tui.incCode500 (t : tui) : tui := { t with code500 := inc64 t.code500 }

/-- The statement `t.code502++`. -/
def tui.incCode502 (t : tui) : tui := { t with code502 := inc64 t.code502 }

/-- The statement `t.code503++`. -/
def tui.incCode503 (t : tui) : tui := { t with code503 := inc64 t.code503 }

/-- The statement `t.code504++`. -/
def tui.incCode504 (t : tui) : tui := { t with code504 := inc64 t.code504 }

/-- The statement `t.code505++`. -/
def tui.incCode505 (t : tui) : tui := { t with code505 := inc64 t.code505 }

/-- The statement `t.codeOthers++`. -/
def tui.incCodeOthers (t : tui) : tui := { t with codeOthers := inc64 t.codeOthers }

/-- The method `tui.appendCode`: a switch on `code / 100` (Go integer division,
truncating toward zero); inside the cases 3, 4 and 5 a run of independent
`if code == ...` statements, then the increment of the coarse counter. The
statement under `code == 505` increments `code504`, as the source has it. -/
def appendCode (t : tui) (code : Int) : tui :=
  match Int.tdiv code 100 with
  | 1 => t.incCode1xx
  | 2 => t.incCode2xx
  | 3 =>
    let t := if code = 301 then t.incCode301 else t
    let t := if code = 302 then t.incCode302 else t
    let t := if code = 303 then t.incCode303 else t
    let t := if code = 304 then t.incCode304 else t
    let t := if code = 307 then t.incCode307 else t
    let t := if code = 308 then t.incCode308 else t
    t.incCode3xx
  | 4 =>
    let t := if code = 400 then t.incCode400 else t
    let t := if code = 401 then t.incCode401 else t
    let t := if code = 403 then t.incCode403 else t
    let t := if code = 404 then t.incCode404 else t
    let t := if code = 405 then t.incCode405 else t
    t.incCode4xx
  | 5 =>
    let t := if code = 500 then t.incCode500 else t
    let t := if code = 502 then t.incCode502 else t
    let t := if code = 503 then t.incCode503 else t
    let t := if code = 504 then t.incCode504 else t
    let t := if code = 505 then t.incCode504 else t
    t.incCode5xx
  | _ => t.incCodeOthers

/-- A finite sequence of `appendCode` calls, in order, on the sink `t`. -/
def appendCodes (t : tui) (codes : List Int) : tui := codes.foldl appendCode t

/-- The number of calls of a sequence whose `code / 100` equals `k`. -/
def classCount (k : Int) (codes : List Int) : Int :=
  (codes.countP (fun c => decide (Int.tdiv c 100 = k)) : Nat)

/-- The number of calls of a sequence whose `code / 100` lies outside `1..5`. -/
def othersCount (codes : List Int) : Int :=
  (codes.countP (fun c => decide (Int.tdiv c 100 < 1 ∨ 5 < Int.tdiv c 100)) : Nat)

/-- The specific-code counters of a sink, listed with the code each is named
for, in the order `writeCodes` prints them. -/
def specificCounters (t : tui) : List (Int × Int) :=
  [(301, t.code301), (302, t.code302), (303, t.code303), (304, t.code304),
   (307, t.code307), (308, t.code308),
   (400, t.code400), (401, t.code401), (403, t.code403), (404, t.code404),
   (405, t.code405),
   (500, t.code500), (502, t.code502), (503, t.code503), (504, t.code504),
   (505, t.code505)]

/-! ## The update step -/

/-- The messages `Update` distinguishes by type: a `tea.KeyMsg` (with the text
its `String()` method returns), a `tea.WindowSizeMsg`, an `int`, and every
other message type (the `tickMsg` among them). -/
inductive Msg where
  | key (s : String)
  | windowSize (width height : Int)
  | int (n : Int)
  | other
  deriving DecidableEq, Repr

/-- The commands `Update` returns: `nil`, `tea.Quit`, or the next `tick()`. -/
inductive Cmd where
  | none
  | quit
  | tick
  deriving DecidableEq, Repr

/-- The constant `done = 1`, the value of the finished signal. -/
def doneSignal : Int := 1

/-- The constant `padding`. -/
def padding : Int := 2

/-- The constant `maxWidth`. -/
def maxWidth : Int := 66

/-- The method `tui.Update`: a type switch on the message. The quit keys fall
through to `t.quitting = true`; the switch never reads `t.quitting` or
`t.done`. -/
def Update (t : tui) (msg : Msg) : tui × Cmd :=
  match msg with
  | Msg.key s =>
    if s = "q" ∨ s = "esc" ∨ s = "ctrl+c" then ({ t with quitting := true }, Cmd.quit)
    else (t, Cmd.none)
  | Msg.windowSize width _ =>
    let w := width - padding * 2 - 4
    ({ t with progressBarWidth := if w > maxWidth then maxWidth else w }, Cmd.none)
  | Msg.int n =>
    if n = doneSignal then ({ t with done := true }, Cmd.quit) else (t, Cmd.none)
  | Msg.other => (t, Cmd.tick)

/-! ## binary64 floating point

Go's `float64` is IEEE 754 binary64. A finite value is kept as a sign, a
significand `m` and an exponent `e`, and stands for `± m * 2 ^ e * 2 ^ (-1074)`:
it counts in units of the smallest subnormal. The values a computation
produces are canonical (`F64.IsCanonical`): `m < 2 ^ 53`, `e ≤ 2045`, and
`2 ^ 52 ≤ m` unless `e = 0` (the subnormals and the zeros). Every operation
rounds its exact result to nearest, ties to even (`F64.round`), overflowing to
an infinity. -/

/-- A binary64 value: NaN, an infinity, or the finite `± m * 2 ^ e * 2 ^ (-1074)`. -/
inductive F64 where
  | nan
  | inf (neg : Bool)
  | fin (neg : Bool) (m : Nat) (e : Nat)
  deriving DecidableEq, Repr

/-- Bit length minus one, by halving; `fuel` bounds the number of halvings. -/
def log2Aux : Nat → Nat → Nat
  | 0, _ => 0
  | fuel + 1, n => if n < 2 then 0 else log2Aux fuel (n / 2) + 1

/-- The floor of the base-2 logarithm (`0` at `0`). -/
def log2 (n : Nat) : Nat := log2Aux n n

/-- Integer square root, bit by bit from bit `k - 1` down: `r` is the part found so far. -/
def isqrtAux (n : Nat) : Nat → Nat → Nat
  | 0, r => r
  | k + 1, r => isqrtAux n k (if (r + 2 ^ k) * (r + 2 ^ k) ≤ n then r + 2 ^ k else r)

/-- The floor of the square root. -/
def isqrt (n : Nat) : Nat := isqrtAux n (log2 n / 2 + 1) 0

namespace F64

/-- Positive zero, the zero value of a Go `float64` variable. -/
def zero : F64 := fin false 0 0

/-- Whether the value is one binary64 encodes: NaN, an infinity, or a finite value
whose significand fits 53 bits, normalised unless the exponent is the least one. -/
def isCanonical : F64 → Bool
  | fin _ m e =>
    decide (m < 2 ^ 53) && decide (e ≤ 2045) && (decide (e = 0) || decide (2 ^ 52 ≤ m))
  | _ => true

/-- The values binary64 encodes. -/
def IsCanonical (x : F64) : Prop := x.isCanonical = true

instance (x : F64) : Decidable x.IsCanonical := by
  unfold IsCanonical; infer_instance

/-- The exponent of the binade of the magnitude `n / d` (in units of
`2 ^ (-1074)`): `0` through the subnormals and the first binade of normal values,
else the one that puts `n / d / 2 ^ e` in `[2 ^ 52, 2 ^ 53)`. -/
def binade (n d : Nat) : Nat := if n / d < 2 ^ 53 then 0 else log2 (n / d) - 52

/-- The integer nearest to `n / D`, the even one of the two when `n / D` is halfway. -/
def nearestEven (n D : Nat) : Nat :=
  if D < 2 * (n % D) ∨ (2 * (n % D) = D ∧ n / D % 2 = 1) then n / D + 1 else n / D

/-- The value of significand `m ≤ 2 ^ 53` at exponent `e`: a significand rounded up
to `2 ^ 53` moves to the next binade, an exponent above `2045` overflows. -/
def pack (neg : Bool) (m e : Nat) : F64 :=
  if m = 2 ^ 53 then (if 2045 ≤ e then inf neg else fin neg (2 ^ 52) (e + 1))
  else if 2045 < e then inf neg
  else fin neg m e

/-- Round the exact magnitude `n / d` (in units of `2 ^ (-1074)`, `d > 0`) to
binary64, to nearest, ties to even: the significand is `n / d` over one unit in
the last place of its binade, rounded to an integer. -/
def round (neg : Bool) (n d : Nat) : F64 :=
  pack neg (nearestEven n (d * 2 ^ binade n d)) (binade n d)

/-- The conversion `float64(i)` of an integer. -/
def ofInt (i : Int) : F64 := round (decide (i < 0)) (i.natAbs * 2 ^ 1074) 1

/-- Unary minus. -/
def neg : F64 → F64
  | nan => nan
  | inf s => inf (!s)
  | fin s m e => fin (!s) m e

/-- Addition `x + y`. An exact zero sum of opposite signs is `+0`. -/
def add : F64 → F64 → F64
  | nan, _ => nan
  | _, nan => nan
  | inf s, inf t => if s = t then inf s else nan
  | inf s, fin _ _ _ => inf s
  | fin _ _ _, inf t => inf t
  | fin s m e, fin t k f =>
    if s = t then round s (m * 2 ^ e + k * 2 ^ f) 1
    else if m * 2 ^ e = k * 2 ^ f then fin false 0 0
    else if k * 2 ^ f < m * 2 ^ e then round s (m * 2 ^ e - k * 2 ^ f) 1
    else round t (k * 2 ^ f - m * 2 ^ e) 1

/-- Subtraction `x - y`. -/
def sub (x y : F64) : F64 := add x (neg y)

/-- Multiplication `x * y`. -/
def mul : F64 → F64 → F64
  | nan, _ => nan
  | _, nan => nan
  | inf s, inf t => inf (xor s t)
  | inf s, fin t k _ => if k = 0 then nan else inf (xor s t)
  | fin s m _, inf t => if m = 0 then nan else inf (xor s t)
  | fin s m e, fin t k f => round (xor s t) (m * 2 ^ e * (k * 2 ^ f)) (2 ^ 1074)

/-- Division `x / y`: `0 / 0` and `∞ / ∞` are NaN, a non-zero value over zero is an
infinity. -/
def div : F64 → F64 → F64
  | nan, _ => nan
  | _, nan => nan
  | inf _, inf _ => nan
  | inf s, fin t _ _ => inf (xor s t)
  | fin s _ _, inf t => fin (xor s t) 0 0
  | fin s m e, fin t k f =>
    if k = 0 then (if m = 0 then nan else inf (xor s t))
    else round (xor s t) (m * 2 ^ e * 2 ^ 1074) (k * 2 ^ f)

/-- The function `math.Sqrt`: NaN below zero, `±0` and `+∞` kept, correctly rounded
otherwise. When the square root is irrational it lies strictly between `r` and
`r + 1`, as does `r + 1/2`, the value rounded in its place; `r ≥ 2 ^ 537` puts
no binary64 value or midpoint strictly between these two integers. -/
def sqrt : F64 → F64
  | nan => nan
  | inf s => if s then nan else inf false
  | fin s m e =>
    if m = 0 then fin s m e
    else if s then nan
    else
      let r := isqrt (m * 2 ^ e * 2 ^ 1074)
      if r * r = m * 2 ^ e * 2 ^ 1074 then round false r 1 else round false (2 * r + 1) 2

/-- Whether the value is NaN. -/
def isNaN : F64 → Bool
  | nan => true
  | _ => false

/-- The rank of a value in the order: `-∞` below, `+∞` above the finite values. -/
def cls : F64 → Int
  | inf true => -1
  | inf false => 1
  | _ => 0

/-- The signed magnitude of a finite value (both zeros give `0`). -/
def sval : F64 → Int
  | fin true m e => -((m * 2 ^ e : Nat) : Int)
  | fin false m e => ((m * 2 ^ e : Nat) : Int)
  | _ => 0

/-- The comparison `x < y`: false when either side is NaN. -/
def lt (x y : F64) : Bool :=
  !x.isNaN && !y.isNaN && decide (x.cls < y.cls ∨ (x.cls = y.cls ∧ x.sval < y.sval))

/-- The comparison `x > y`. -/
def gt (x y : F64) : Bool := lt y x

/-- The comparison `x <= y`: false when either side is NaN. -/
def le (x y : F64) : Bool :=
  !x.isNaN && !y.isNaN && decide (x.cls < y.cls ∨ (x.cls = y.cls ∧ x.sval ≤ y.sval))

/-- The comparison `x == y`: false when either side is NaN, true of `+0` and `-0`. -/
def eq (x y : F64) : Bool :=
  !x.isNaN && !y.isNaN && decide (x.cls = y.cls ∧ x.sval = y.sval)

end F64

/-! ## Statistics -/

/-- The first loop of `rpsResult` and of `latencyResult`: `sum += r` and
`if r > max { max = r }` over the samples, from the given `(sum, max)`. -/
def sumMaxLoop : List F64 → F64 × F64 → F64 × F64
  | [], acc => acc
  | r :: rest, (sum, max) => sumMaxLoop rest (sum.add r, if r.gt max then r else max)

/-- The second loop: `diff = avg - r; sum2 += diff * diff` over the samples, the
product and the sum each rounded. -/
def sum2Loop (avg : F64) : List F64 → F64 → F64
  | [], sum2 => sum2
  | r :: rest, sum2 => sum2Loop avg rest (sum2.add ((avg.sub r).mul (avg.sub r)))

/-- The function `rpsResult`; the result is `(avg, stdev, max)`. The named results
and `sum`, `sum2` start at the zero value `+0`. -/
def rpsResult (rps : List F64) : F64 × F64 × F64 :=
  let l : Int := rps.length
  if l = 0 then (F64.zero, F64.zero, F64.zero)
  else
    let (sum, max) := sumMaxLoop rps (F64.zero, F64.zero)
    let avg := sum.div (F64.ofInt l)
    let sum2 := sum2Loop avg rps F64.zero
    let stdev := (sum2.div (F64.ofInt (l - 1))).sqrt
    (avg, stdev, max)

/-- The first loop of `latencyResult`: each latency is first taken to
milliseconds, `r := float64(latency) / 1000`. -/
def latencySumMaxLoop : List Int → F64 × F64 → F64 × F64
  | [], acc => acc
  | latency :: rest, (sum, max) =>
    let r := (F64.ofInt latency).div (F64.ofInt 1000)
    latencySumMaxLoop rest (sum.add r, if r.gt max then r else max)

/-- The second loop of `latencyResult`. -/
def latencySum2Loop (avg : F64) : List Int → F64 → F64
  | [], sum2 => sum2
  | latency :: rest, sum2 =>
    let r := (F64.ofInt latency).div (F64.ofInt 1000)
    latencySum2Loop avg rest (sum2.add ((avg.sub r).mul (avg.sub r)))

/-- The function `latencyResult` on the stored latencies (`int64` microseconds);
the result is `(avg, stdev, max)` in milliseconds. -/
def latencyResult (latencies : List Int) : F64 × F64 × F64 :=
  let l : Int := latencies.length
  if l = 0 then (F64.zero, F64.zero, F64.zero)
  else
    let (sum, max) := latencySumMaxLoop latencies (F64.zero, F64.zero)
    let avg := sum.div (F64.ofInt l)
    let sum2 := latencySum2Loop avg latencies F64.zero
    let stdev := (sum2.div (F64.ofInt (l - 1))).sqrt
    (avg, stdev, max)

/-- The function `formatThroughput`: the first case of the switch that holds. -/
def formatThroughput (throughput : F64) : F64 × String :=
  if throughput.lt (F64.ofInt 1000) then (throughput, "B/s")
  else if throughput.lt (F64.ofInt 1000000) then (throughput.div (F64.ofInt 1000), "KB/s")
  else if throughput.lt (F64.ofInt 1000000000) then
    (throughput.div (F64.ofInt 1000000), "MB/s")
  else (throughput.div (F64.ofInt 1000000000), "GB/s")

/-- The method `tui.writeProcessBar`, as the value of `percent` it hands to
`t.progressBar.View`. -/
def writeProcessBar (t : tui) : F64 :=
  let percent :=
    if t.count ≠ 0 then (F64.ofInt t.reqs).div (F64.ofInt t.count)
    else (F64.ofInt t.elapsed).div (F64.ofInt t.duration)
  if percent.gt (F64.ofInt 1) then F64.ofInt 1 else percent

/-! ## The reference definitions of the specification -/

/-- A latency in milliseconds, as the loops of `latencyResult` compute it:
`float64(latency) / 1000`. -/
def toMillis (latency : Int) : F64 := (F64.ofInt latency).div (F64.ofInt 1000)

/-- The sum of the samples, added in order from `+0`. -/
def batchSum (xs : List F64) : F64 := xs.foldl F64.add F64.zero

/-- The batch average of the specification: `sum / n`. -/
def batchAvg (xs : List F64) : F64 := (batchSum xs).div (F64.ofInt xs.length)

/-- The batch standard deviation of the specification, the sample formula:
`sqrt (Σ (avg - x)² / (n - 1))`. -/
def batchStdev (xs : List F64) : F64 :=
  ((batchSum (xs.map (fun x => ((batchAvg xs).sub x).mul ((batchAvg xs).sub x)))).div
    (F64.ofInt ((xs.length : Int) - 1))).sqrt

/-- The value `M` is the maximum element of the series `xs`: it equals (`==`) an
element of `xs` and no element of `xs` is greater than it. -/
def IsMaximumOf (M : F64) (xs : List F64) : Prop :=
  (∃ y ∈ xs, M.eq y = true) ∧ ∀ x ∈ xs, M.lt x = false

/-- The value lies in the closed interval `[0, 1]`. -/
def InUnitInterval (p : F64) : Prop := F64.zero.le p = true ∧ p.le (F64.ofInt 1) = true

/-- The clamp of `writeProcessBar`: `if percent > 1.0 { percent = 1.0 }`. -/
def clampAtOne (percent : F64) : F64 :=
  if percent.gt (F64.ofInt 1) then F64.ofInt 1 else percent

/-! # Theorems -/

/-! ## The status-code counters -/

theorem appendCode_code1xx (t : tui) (c : Int) :
    (appendCode t c).code1xx =
      (if Int.tdiv c 100 = 1 then inc64 t.code1xx else t.code1xx) := by
  unfold appendCode
  split <;>
    simp only [apply_ite tui.code1xx, tui.incCode1xx, tui.incCode2xx, tui.incCode3xx,
      tui.incCode4xx, tui.incCode5xx, tui.incCodeOthers, tui.incCode301, tui.incCode302,
      tui.incCode303, tui.incCode304, tui.incCode307, tui.incCode308, tui.incCode400,
      tui.incCode401, tui.incCode403, tui.incCode404, tui.incCode405, tui.incCode500,
      tui.incCode502, tui.incCode503, tui.incCode504, tui.incCode505, ite_self] <;>
    split_ifs <;> first | rfl | omega | contradiction

theorem appendCode_code2xx (t : tui) (c : Int) :
    (appendCode t c).code2xx =
      (if Int.tdiv c 100 = 2 then inc64 t.code2xx else t.code2xx) := by
  unfold appendCode
  split <;>
    simp only [apply_ite tui.code2xx, tui.incCode1xx, tui.incCode2xx, tui.incCode3xx,
      tui.incCode4xx, tui.incCode5xx, tui.incCodeOthers, tui.incCode301, tui.incCode302,
      tui.incCode303, tui.incCode304, tui.incCode307, tui.incCode308, tui.incCode400,
      tui.incCode401, tui.incCode403, tui.incCode404, tui.incCode405, tui.incCode500,
      tui.incCode502, tui.incCode503, tui.incCode504, tui.incCode505, ite_self] <;>
    split_ifs <;> first | rfl | omega | contradiction

theorem appendCode_code3xx (t : tui) (c : Int) :
    (appendCode t c).code3xx =
      (if Int.tdiv c 100 = 3 then inc64 t.code3xx else t.code3xx) := by
  unfold appendCode
  split <;>
    simp only [apply_ite tui.code3xx, tui.incCode1xx, tui.incCode2xx, tui.incCode3xx,
      tui.incCode4xx, tui.incCode5xx, tui.incCodeOthers, tui.incCode301, tui.incCode302,
      tui.incCode303, tui.incCode304, tui.incCode307, tui.incCode308, tui.incCode400,
      tui.incCode401, tui.incCode403, tui.incCode404, tui.incCode405, tui.incCode500,
      tui.incCode502, tui.incCode503, tui.incCode504, tui.incCode505, ite_self] <;>
    split_ifs <;> first | rfl | omega | contradiction

theorem appendCode_code4xx (t : tui) (c : Int) :
    (appendCode t c).code4xx =
      (if Int.tdiv c 100 = 4 then inc64 t.code4xx else t.code4xx) := by
  unfold appendCode
  split <;>
    simp only [apply_ite tui.code4xx, tui.incCode1xx, tui.incCode2xx, tui.incCode3xx,
      tui.incCode4xx, tui.incCode5xx, tui.incCodeOthers, tui.incCode301, tui.incCode302,
      tui.incCode303, tui.incCode304, tui.incCode307, tui.incCode308, tui.incCode400,
      tui.incCode401, tui.incCode403, tui.incCode404, tui.incCode405, tui.incCode500,
      tui.incCode502, tui.incCode503, tui.incCode504, tui.incCode505, ite_self] <;>
    split_ifs <;> first | rfl | omega | contradiction

theorem appendCode_code5xx (t : tui) (c : Int) :
    (appendCode t c).code5xx =
      (if Int.tdiv c 100 = 5 then inc64 t.code5xx else t.code5xx) := by
  unfold appendCode
  split <;>
    simp only [apply_ite tui.code5xx, tui.incCode1xx, tui.incCode2xx, tui.incCode3xx,
      tui.incCode4xx, tui.incCode5xx, tui.incCodeOthers, tui.incCode301, tui.incCode302,
      tui.incCode303, tui.incCode304, tui.incCode307, tui.incCode308, tui.incCode400,
      tui.incCode401, tui.incCode403, tui.incCode404, tui.incCode405, tui.incCode500,
      tui.incCode502, tui.incCode503, tui.incCode504, tui.incCode505, ite_self] <;>
    split_ifs <;> first | rfl | omega | contradiction

theorem appendCode_codeOthers (t : tui) (c : Int) :
    (appendCode t c).codeOthers =
      (if Int.tdiv c 100 < 1 ∨ 5 < Int.tdiv c 100 then inc64 t.codeOthers
       else t.codeOthers) := by
  unfold appendCode
  split <;>
    simp only [apply_ite tui.codeOthers, tui.incCode1xx, tui.incCode2xx, tui.incCode3xx,
      tui.incCode4xx, tui.incCode5xx, tui.incCodeOthers, tui.incCode301, tui.incCode302,
      tui.incCode303, tui.incCode304, tui.incCode307, tui.incCode308, tui.incCode400,
      tui.incCode401, tui.incCode403, tui.incCode404, tui.incCode405, tui.incCode500,
      tui.incCode502, tui.incCode503, tui.incCode504, tui.incCode505, ite_self] <;>
    split_ifs <;> first | rfl | omega | (simp only [imp_false] at *; omega)

theorem appendCode_specific (t : tui) (c : Int) :
    specificCounters (appendCode t c) =
      (specificCounters t).map (fun kv =>
        if (kv.1 = c ∧ c ≠ 505) ∨ (kv.1 = 504 ∧ c = 505) then (kv.1, inc64 kv.2) else kv) := by
  by_cases h301 : c = 301
  · subst h301; rfl
  by_cases h302 : c = 302
  · subst h302; rfl
  by_cases h303 : c = 303
  · subst h303; rfl
  by_cases h304 : c = 304
  · subst h304; rfl
  by_cases h307 : c = 307
  · subst h307; rfl
  by_cases h308 : c = 308
  · subst h308; rfl
  by_cases h400 : c = 400
  · subst h400; rfl
  by_cases h401 : c = 401
  · subst h401; rfl
  by_cases h403 : c = 403
  · subst h403; rfl
  by_cases h404 : c = 404
  · subst h404; rfl
  by_cases h405 : c = 405
  · subst h405; rfl
  by_cases h500 : c = 500
  · subst h500; rfl
  by_cases h502 : c = 502
  · subst h502; rfl
  by_cases h503 : c = 503
  · subst h503; rfl
  by_cases h504 : c = 504
  · subst h504; rfl
  by_cases h505 : c = 505
  · subst h505; rfl
  unfold appendCode
  split <;>
    (try simp only [if_neg h301, if_neg h302, if_neg h303, if_neg h304, if_neg h307,
      if_neg h308, if_neg h400, if_neg h401, if_neg h403, if_neg h404, if_neg h405,
      if_neg h500, if_neg h502, if_neg h503, if_neg h504, if_neg h505]) <;>
    simp [specificCounters, tui.incCode1xx, tui.incCode2xx, tui.incCode3xx,
      tui.incCode4xx, tui.incCode5xx, tui.incCodeOthers, h505, Ne.symm h301, Ne.symm h302,
      Ne.symm h303, Ne.symm h304, Ne.symm h307, Ne.symm h308, Ne.symm h400, Ne.symm h401,
      Ne.symm h403, Ne.symm h404, Ne.symm h405, Ne.symm h500, Ne.symm h502, Ne.symm h503,
      Ne.symm h504, Ne.symm h505]

theorem inc64_of_lt (x : Int) (h0 : 0 ≤ x) (h1 : x + 1 < 2 ^ 63) : inc64 x = x + 1 := by
  unfold inc64 wrap64
  omega

theorem appendCodes_snoc (t : tui) (l : List Int) (c : Int) :
    appendCodes t (l ++ [c]) = appendCode (appendCodes t l) c := by
  simp [appendCodes]

theorem classCount_snoc (k : Int) (l : List Int) (c : Int) :
    classCount k (l ++ [c]) = classCount k l + (if Int.tdiv c 100 = k then 1 else 0) := by
  unfold classCount
  rw [List.countP_append]
  by_cases h : Int.tdiv c 100 = k <;> simp [List.countP_cons, h]

theorem othersCount_snoc (l : List Int) (c : Int) :
    othersCount (l ++ [c]) =
      othersCount l + (if Int.tdiv c 100 < 1 ∨ 5 < Int.tdiv c 100 then 1 else 0) := by
  unfold othersCount
  rw [List.countP_append]
  by_cases h : Int.tdiv c 100 < 1 ∨ 5 < Int.tdiv c 100 <;> simp [List.countP_cons, h]

theorem classCount_bounds (k : Int) (l : List Int) :
    0 ≤ classCount k l ∧ classCount k l ≤ l.length := by
  unfold classCount
  exact ⟨Int.ofNat_nonneg _, by exact_mod_cast List.countP_le_length _⟩

theorem othersCount_bounds (l : List Int) :
    0 ≤ othersCount l ∧ othersCount l ≤ l.length := by
  unfold othersCount
  exact ⟨Int.ofNat_nonneg _, by exact_mod_cast List.countP_le_length _⟩

/-- C1. Starting from the sink of `newTui` (all counters zero), after any sequence of
fewer than `2 ^ 63` `appendCode` calls (the `int64` counters cannot wrap before that)
each coarse counter `code{k}xx`, `k` in `1..5`, is the number of calls with
`code / 100 = k` (truncating division), and `codeOthers` is the number of calls whose
`code / 100` is outside `1..5`; `appendCode` is a total function, so no call fails. -/
theorem C1_coarse_counters_count_calls (codes : List Int) (h : (codes.length : Int) < 2 ^ 63) :
    (appendCodes newTui codes).code1xx = classCount 1 codes ∧
    (appendCodes newTui codes).code2xx = classCount 2 codes ∧
    (appendCodes newTui codes).code3xx = classCount 3 codes ∧
    (appendCodes newTui codes).code4xx = classCount 4 codes ∧
    (appendCodes newTui codes).code5xx = classCount 5 codes ∧
    (appendCodes newTui codes).codeOthers = othersCount codes := by
  induction codes using List.reverseRecOn with
  | nil => exact ⟨rfl, rfl, rfl, rfl, rfl, rfl⟩
  | append_singleton l c ih =>
    have hl : ((l ++ [c]).length : Int) = l.length + 1 := by simp
    rw [hl] at h
    obtain ⟨h1, h2, h3, h4, h5, h6⟩ := ih (by omega)
    have b1 := classCount_bounds 1 l
    have b2 := classCount_bounds 2 l
    have b3 := classCount_bounds 3 l
    have b4 := classCount_bounds 4 l
    have b5 := classCount_bounds 5 l
    have b6 := othersCount_bounds l
    rw [appendCodes_snoc, appendCode_code1xx, appendCode_code2xx, appendCode_code3xx,
      appendCode_code4xx, appendCode_code5xx, appendCode_codeOthers, h1, h2, h3, h4, h5, h6,
      classCount_snoc, classCount_snoc, classCount_snoc, classCount_snoc, classCount_snoc,
      othersCount_snoc]
    refine ⟨?_, ?_, ?_, ?_, ?_, ?_⟩ <;> split_ifs <;>
      first | (rw [inc64_of_lt _ (by omega) (by omega)]) | omega

/-- The statement of C1 at the calls 200, 404, 404, 505, 99, 600, -150, 301. -/
theorem C1_coarse_counters_count_calls_witness :
    (appendCodes newTui [200, 404, 404, 505, 99, 600, -150, 301]).code1xx = 0 ∧
    (appendCodes newTui [200, 404, 404, 505, 99, 600, -150, 301]).code2xx = 1 ∧
    (appendCodes newTui [200, 404, 404, 505, 99, 600, -150, 301]).code3xx = 1 ∧
    (appendCodes newTui [200, 404, 404, 505, 99, 600, -150, 301]).code4xx = 2 ∧
    (appendCodes newTui [200, 404, 404, 505, 99, 600, -150, 301]).code5xx = 1 ∧
    (appendCodes newTui [200, 404, 404, 505, 99, 600, -150, 301]).codeOthers = 3 :=
  C1_coarse_counters_count_calls [200, 404, 404, 505, 99, 600, -150, 301] (by decide)

/-- C2 at the failing input: `appendCode(505)` on the fresh sink leaves `code505` at 0
and raises `code504` to 1; no other specific-code counter moves. -/
theorem C2_appendCode_505_raises_code504 :
    specificCounters (appendCode newTui 505) =
      [(301, 0), (302, 0), (303, 0), (304, 0), (307, 0), (308, 0),
       (400, 0), (401, 0), (403, 0), (404, 0), (405, 0),
       (500, 0), (502, 0), (503, 0), (504, 1), (505, 0)] := by
  rfl

/-! ## The claims on the update step -/

/-- C3, as stated, fails: in the state Quitting the finished signal sets `done`, and
in the state Done the key `q` sets `quitting`. -/
theorem C3_finished_signal_in_quitting_sets_done :
    (Update { newTui with quitting := true } (Msg.int 1)).1.done = true ∧
    ({ newTui with quitting := true } : tui).done = false ∧
    (Update { newTui with done := true } (Msg.key "q")).1.quitting = true ∧
    ({ newTui with done := true } : tui).quitting = false := by
  decide

/-- C3, amended: `Update` never clears a flag. In every state and for every message
`quitting` stays true if it was true and `done` stays true if it was true; and every
message other than a quit key (`q`, `esc`, `ctrl+c`) and the finished signal leaves
both flags as they were. -/
theorem C3_update_never_clears_flags (t : tui) (msg : Msg) :
    (t.quitting = true → (Update t msg).1.quitting = true) ∧
    (t.done = true → (Update t msg).1.done = true) ∧
    ((∀ s, msg = Msg.key s → s ≠ "q" ∧ s ≠ "esc" ∧ s ≠ "ctrl+c") →
      msg ≠ Msg.int doneSignal →
      (Update t msg).1.quitting = t.quitting ∧ (Update t msg).1.done = t.done) := by
  cases msg with
  | key s =>
    by_cases h : s = "q" ∨ s = "esc" ∨ s = "ctrl+c"
    · refine ⟨?_, ?_, ?_⟩
      · intro _; simp [Update, h]
      · intro hd; simp [Update, h, hd]
      · intro hk _
        obtain ⟨a, b, c⟩ := hk s rfl
        rcases h with h | h | h
        · exact absurd h a
        · exact absurd h b
        · exact absurd h c
    · simp [Update, h]
  | windowSize w hgt => simp [Update]
  | int n =>
    by_cases h : n = doneSignal
    · refine ⟨?_, ?_, ?_⟩
      · intro hq; simp [Update, h, hq]
      · intro _; simp [Update, h]
      · intro _ hne; rw [h] at hne; exact absurd rfl hne
    · simp [Update, h]
  | other => simp [Update]

/-- The amended C3 in the state Quitting on a tick: both flags stay as they were. -/
theorem C3_update_never_clears_flags_witness :
    (Update { newTui with quitting := true } Msg.other).1.quitting = true ∧
    (Update { newTui with quitting := true } Msg.other).1.done = false :=
  (C3_update_never_clears_flags { newTui with quitting := true } Msg.other).2.2
    (fun _ h => by cases h) (by decide)

/-- C10. In the state Running (`quitting = false`, `done = false`): a key message whose
text is `q`, `esc` or `ctrl+c` sets `quitting`, leaves `done` false and returns the
Quit command; the finished signal (the `int` message `done = 1`) sets `done`, leaves
`quitting` false and returns the Quit command; every other key message leaves the state
as it is and returns no command. -/
theorem C10_transitions_out_of_running (t : tui) (hq : t.quitting = false)
    (hd : t.done = false) :
    (∀ s, s = "q" ∨ s = "esc" ∨ s = "ctrl+c" →
      (Update t (Msg.key s)).1.quitting = true ∧ (Update t (Msg.key s)).1.done = false ∧
      (Update t (Msg.key s)).2 = Cmd.quit) ∧
    ((Update t (Msg.int doneSignal)).1.done = true ∧
      (Update t (Msg.int doneSignal)).1.quitting = false ∧
      (Update t (Msg.int doneSignal)).2 = Cmd.quit) ∧
    (∀ s, ¬ (s = "q" ∨ s = "esc" ∨ s = "ctrl+c") →
      (Update t (Msg.key s)).1.quitting = t.quitting ∧
      (Update t (Msg.key s)).1.done = t.done ∧
      (Update t (Msg.key s)).2 = Cmd.none) := by
  refine ⟨?_, ?_, ?_⟩
  · intro s h
    simp [Update, h, hd]
  · simp [Update, hq]
  · intro s h
    simp [Update, h]

/-- C10 at the fresh model of `newTui` and the keys `esc` and `x`. -/
theorem C10_transitions_out_of_running_witness :
    ((Update newTui (Msg.key "esc")).1.quitting = true ∧
      (Update newTui (Msg.key "esc")).1.done = false ∧
      (Update newTui (Msg.key "esc")).2 = Cmd.quit) ∧
    ((Update newTui (Msg.int doneSignal)).1.done = true ∧
      (Update newTui (Msg.int doneSignal)).1.quitting = false ∧
      (Update newTui (Msg.int doneSignal)).2 = Cmd.quit) ∧
    ((Update newTui (Msg.key "x")).1.quitting = newTui.quitting ∧
      (Update newTui (Msg.key "x")).1.done = newTui.done ∧
      (Update newTui (Msg.key "x")).2 = Cmd.none) :=
  ⟨(C10_transitions_out_of_running newTui rfl rfl).1 "esc" (by decide),
   (C10_transitions_out_of_running newTui rfl rfl).2.1,
   (C10_transitions_out_of_running newTui rfl rfl).2.2 "x" (by decide)⟩

/-! ## The helpers of the binary64 model -/

theorem log2Aux_spec : ∀ (fuel n : Nat), n ≤ fuel → 0 < n →
    2 ^ log2Aux fuel n ≤ n ∧ n < 2 ^ (log2Aux fuel n + 1) := by
  intro fuel
  induction fuel with
  | zero => intro n h1 h2; omega
  | succ fuel ih =>
    intro n h1 h2
    unfold log2Aux
    by_cases h : n < 2
    · rw [if_pos h]
      constructor <;> simp <;> omega
    · rw [if_neg h]
      obtain ⟨a, b⟩ := ih (n / 2) (by omega) (by omega)
      rw [pow_succ] at b ⊢
      rw [pow_succ (n := _ + 1), pow_succ]
      constructor <;> omega

/-- The function `log2` is the floor of the base-2 logarithm. -/
theorem log2_spec (n : Nat) (h : 0 < n) : 2 ^ log2 n ≤ n ∧ n < 2 ^ (log2 n + 1) :=
  log2Aux_spec n n (Nat.le_refl n) h

theorem isqrtAux_spec (n : Nat) : ∀ (k r : Nat), r * r ≤ n → n < (r + 2 ^ k) * (r + 2 ^ k) →
    isqrtAux n k r * isqrtAux n k r ≤ n ∧
      n < (isqrtAux n k r + 1) * (isqrtAux n k r + 1) := by
  intro k
  induction k with
  | zero =>
    intro r h1 h2
    simpa [isqrtAux] using ⟨h1, h2⟩
  | succ k ih =>
    intro r h1 h2
    unfold isqrtAux
    by_cases h : (r + 2 ^ k) * (r + 2 ^ k) ≤ n
    · rw [if_pos h]
      apply ih _ h
      have e : r + 2 ^ k + 2 ^ k = r + 2 ^ (k + 1) := by rw [pow_succ]; omega
      rw [e]; exact h2
    · rw [if_neg h]
      exact ih _ h1 (by omega)

/-- The function `isqrt` is the floor of the square root. -/
theorem isqrt_spec (n : Nat) : isqrt n * isqrt n ≤ n ∧ n < (isqrt n + 1) * (isqrt n + 1) := by
  unfold isqrt
  apply isqrtAux_spec
  · simp
  · rcases Nat.eq_zero_or_pos n with h | h
    · subst h; simp
    · have b := (log2_spec n h).2
      have c : log2 n + 1 ≤ (log2 n / 2 + 1) + (log2 n / 2 + 1) := by omega
      calc n < 2 ^ (log2 n + 1) := b
        _ ≤ 2 ^ ((log2 n / 2 + 1) + (log2 n / 2 + 1)) := Nat.pow_le_pow_right (by decide) c
        _ = (0 + 2 ^ (log2 n / 2 + 1)) * (0 + 2 ^ (log2 n / 2 + 1)) := by
          rw [pow_add]; simp

namespace F64

theorem pack_shape (s : Bool) (m e : Nat) :
    pack s m e = inf s ∨ ∃ m' e', pack s m e = fin s m' e' := by
  unfold pack
  split_ifs
  · exact Or.inl rfl
  · exact Or.inr ⟨_, _, rfl⟩
  · exact Or.inl rfl
  · exact Or.inr ⟨_, _, rfl⟩

/-- Rounding keeps the sign: the result is the infinity or a finite value of that sign. -/
theorem round_shape (s : Bool) (n d : Nat) :
    round s n d = inf s ∨ ∃ m e, round s n d = fin s m e :=
  pack_shape s _ _

theorem isCanonical_fin (s : Bool) (m e : Nat) :
    (fin s m e).IsCanonical ↔ m < 2 ^ 53 ∧ e ≤ 2045 ∧ (e = 0 ∨ 2 ^ 52 ≤ m) := by
  simp [IsCanonical, isCanonical, and_assoc]

theorem isCanonical_inf (s : Bool) : (inf s).IsCanonical := rfl

theorem isCanonical_nan : nan.IsCanonical := rfl

theorem pack_canonical (s : Bool) (m e : Nat) (h1 : m ≤ 2 ^ 53) (h2 : e = 0 ∨ 2 ^ 52 ≤ m) :
    (pack s m e).IsCanonical := by
  unfold pack
  split_ifs
  · exact isCanonical_inf s
  · exact (isCanonical_fin _ _ _).2 ⟨by decide, by omega, Or.inr (Nat.le_refl _)⟩
  · exact isCanonical_inf s
  · exact (isCanonical_fin _ _ _).2 ⟨by omega, by omega, h2⟩

theorem nearestEven_bounds (n D : Nat) :
    n / D ≤ nearestEven n D ∧ nearestEven n D ≤ n / D + 1 := by
  unfold nearestEven
  split_ifs <;> omega

/-- The exponent `binade` picks puts the quotient in `[2 ^ 52, 2 ^ 53)`, or is `0`
with the quotient below `2 ^ 53`. -/
theorem binade_quotient (n d : Nat) :
    n / (d * 2 ^ binade n d) < 2 ^ 53 ∧
      (binade n d = 0 ∨ 2 ^ 52 ≤ n / (d * 2 ^ binade n d)) := by
  by_cases h : n / d < 2 ^ 53
  · have he : binade n d = 0 := if_pos h
    rw [he]
    simpa using h
  · have he : binade n d = log2 (n / d) - 52 := if_neg h
    have hq : 0 < n / d := by
      have : 0 < 2 ^ 53 := by positivity
      omega
    obtain ⟨a, b⟩ := log2_spec (n / d) hq
    have hL : 53 ≤ log2 (n / d) := by
      by_contra hc
      have : 2 ^ (log2 (n / d) + 1) ≤ 2 ^ 53 := Nat.pow_le_pow_right (by decide) (by omega)
      omega
    have e1 : log2 (n / d) = 52 + binade n d := by omega
    rw [e1, pow_add] at a
    rw [e1, show 52 + binade n d + 1 = 53 + binade n d by omega, pow_add] at b
    rw [← Nat.div_div_eq_div_mul]
    have hp : 0 < 2 ^ binade n d := by positivity
    exact ⟨(Nat.div_lt_iff_lt_mul hp).2 b, Or.inr ((Nat.le_div_iff_mul_le hp).2 a)⟩

/-- Rounding yields a binary64 value. -/
theorem round_canonical (s : Bool) (n d : Nat) : (round s n d).IsCanonical := by
  obtain ⟨h1, h2⟩ := binade_quotient n d
  obtain ⟨h3, h4⟩ := nearestEven_bounds n (d * 2 ^ binade n d)
  apply pack_canonical
  · omega
  · rcases h2 with h2 | h2
    · exact Or.inl h2
    · exact Or.inr (by omega)

end F64

namespace F64

theorem log2_unique (n L : Nat) (h1 : 2 ^ L ≤ n) (h2 : n < 2 ^ (L + 1)) : log2 n = L := by
  have hn : 0 < n := lt_of_lt_of_le (Nat.two_pow_pos L) h1
  obtain ⟨a, b⟩ := log2_spec n hn
  by_contra hne
  rcases Nat.lt_or_gt_of_ne hne with h | h
  · have : 2 ^ (log2 n + 1) ≤ 2 ^ L := Nat.pow_le_pow_right (by decide) (by omega)
    omega
  · have : 2 ^ (L + 1) ≤ 2 ^ log2 n := Nat.pow_le_pow_right (by decide) (by omega)
    omega

theorem binade_canonical (m e : Nat) (h1 : m < 2 ^ 53) (h2 : e = 0 ∨ 2 ^ 52 ≤ m) :
    binade (m * 2 ^ e) 1 = e := by
  unfold binade
  rw [Nat.div_one]
  rcases Nat.eq_zero_or_pos e with he | he
  · subst he
    rw [if_pos (by simpa using h1)]
  · have h3 : 2 ^ 52 ≤ m := by omega
    obtain ⟨e', rfl⟩ : ∃ e', e = e' + 1 := ⟨e - 1, by omega⟩
    have hp : 0 < 2 ^ e' := Nat.two_pow_pos _
    have hge : 2 ^ 53 ≤ m * 2 ^ (e' + 1) := by
      rw [pow_succ]
      calc 2 ^ 53 = 2 ^ 52 * (1 * 2) := by norm_num
        _ ≤ m * (2 ^ e' * 2) := Nat.mul_le_mul h3 (Nat.mul_le_mul_right 2 hp)
    rw [if_neg (by omega)]
    have hl : log2 (m * 2 ^ (e' + 1)) = 52 + (e' + 1) := by
      apply log2_unique
      · rw [pow_add]; exact Nat.mul_le_mul_right _ h3
      · rw [show 52 + (e' + 1) + 1 = 53 + (e' + 1) by omega, pow_add 2 53 (e' + 1)]
        exact Nat.mul_lt_mul_of_pos_right h1 (Nat.two_pow_pos _)
    rw [hl]; omega

theorem nearestEven_exact (m D : Nat) (hD : 0 < D) : nearestEven (m * D) D = m := by
  unfold nearestEven
  rw [Nat.mul_mod_left, Nat.mul_div_cancel _ hD]
  rw [if_neg]
  omega

/-- Rounding fixes the binary64 values: a canonical value is its own rounding. -/
theorem round_canonical_self (s : Bool) (m e : Nat) (h : (fin s m e).IsCanonical) :
    round s (m * 2 ^ e) 1 = fin s m e := by
  obtain ⟨h1, h2, h3⟩ := (isCanonical_fin s m e).1 h
  unfold round
  rw [binade_canonical m e h1 h3, Nat.one_mul, nearestEven_exact m _ (Nat.two_pow_pos _)]
  unfold pack
  rw [if_neg (by omega), if_neg (by omega)]

theorem nearestEven_scale (n D k : Nat) (hk : 0 < k) :
    nearestEven (n * k) (D * k) = nearestEven n D := by
  unfold nearestEven
  rw [Nat.mul_div_mul_right _ _ hk, Nat.mul_mod_mul_right]
  have e1 : (D * k < 2 * (n % D * k)) ↔ (D < 2 * (n % D)) := by
    rw [← Nat.mul_assoc]; exact Nat.mul_lt_mul_right hk
  have e2 : (2 * (n % D * k) = D * k) ↔ (2 * (n % D) = D) := by
    rw [← Nat.mul_assoc]; exact Nat.mul_left_inj (by omega)
  simp only [e1, e2]

/-- Rounding depends on the quotient `n / d` alone, not on the fraction that gives it. -/
theorem round_scale (s : Bool) (n d k : Nat) (hk : 0 < k) :
    round s (n * k) (d * k) = round s n d := by
  have hb : binade (n * k) (d * k) = binade n d := by
    unfold binade; rw [Nat.mul_div_mul_right _ _ hk]
  unfold round
  rw [hb, Nat.mul_right_comm, nearestEven_scale _ _ _ hk]

end F64

/-! ## The operations stay within binary64 -/

namespace F64

theorem ofInt_canonical (i : Int) : (ofInt i).IsCanonical := round_canonical _ _ _

theorem neg_canonical (x : F64) (hx : x.IsCanonical) : x.neg.IsCanonical := by
  cases x with
  | nan => exact isCanonical_nan
  | inf s => exact isCanonical_inf _
  | fin s m e => exact hx

theorem add_canonical (x y : F64) : (x.add y).IsCanonical := by
  cases x with
  | nan => cases y <;> exact isCanonical_nan
  | inf s =>
    cases y with
    | nan => exact isCanonical_nan
    | inf t =>
      simp only [add]
      split_ifs
      · exact isCanonical_inf _
      · exact isCanonical_nan
    | fin t k f => exact isCanonical_inf _
  | fin s m e =>
    cases y with
    | nan => exact isCanonical_nan
    | inf t => exact isCanonical_inf _
    | fin t k f =>
      simp only [add]
      split_ifs
      · exact round_canonical _ _ _
      · exact (isCanonical_fin _ _ _).2 ⟨by decide, by decide, Or.inl rfl⟩
      · exact round_canonical _ _ _
      · exact round_canonical _ _ _

theorem sub_canonical (x y : F64) : (x.sub y).IsCanonical := add_canonical _ _

theorem mul_canonical (x y : F64) : (x.mul y).IsCanonical := by
  cases x with
  | nan => cases y <;> exact isCanonical_nan
  | inf s =>
    cases y with
    | nan => exact isCanonical_nan
    | inf t => exact isCanonical_inf _
    | fin t k f =>
      simp only [mul]
      split_ifs
      · exact isCanonical_nan
      · exact isCanonical_inf _
  | fin s m e =>
    cases y with
    | nan => exact isCanonical_nan
    | inf t =>
      simp only [mul]
      split_ifs
      · exact isCanonical_nan
      · exact isCanonical_inf _
    | fin t k f =>
      simp only [mul]
      exact round_canonical _ _ _

theorem div_canonical (x y : F64) : (x.div y).IsCanonical := by
  cases x with
  | nan => cases y <;> exact isCanonical_nan
  | inf s =>
    cases y with
    | nan => exact isCanonical_nan
    | inf t => exact isCanonical_nan
    | fin t k f => exact isCanonical_inf _
  | fin s m e =>
    cases y with
    | nan => exact isCanonical_nan
    | inf t => exact (isCanonical_fin _ _ _).2 ⟨by decide, by decide, Or.inl rfl⟩
    | fin t k f =>
      simp only [div]
      split_ifs
      · exact isCanonical_nan
      · exact isCanonical_inf _
      · exact round_canonical _ _ _

theorem sqrt_canonical (x : F64) (hx : x.IsCanonical) : x.sqrt.IsCanonical := by
  cases x with
  | nan => exact isCanonical_nan
  | inf s => cases s <;> decide
  | fin s m e =>
    simp only [sqrt]
    split_ifs
    · exact hx
    · exact isCanonical_nan
    · exact round_canonical _ _ _
    · exact round_canonical _ _ _

end F64

/-! ## The model against known binary64 results -/

/-- The quotient `1 / 3` is `0x3FD5555555555555`. -/
theorem check_one_third :
    (F64.ofInt 1).div (F64.ofInt 3) = F64.fin false 0x15555555555555 1020 := by decide!

/-- The sum `0.1 + 0.2` is `0x3FD3333333333334`, that is `0.30000000000000004`. -/
theorem check_tenth_plus_fifth :
    ((F64.ofInt 1).div (F64.ofInt 10)).add ((F64.ofInt 1).div (F64.ofInt 5)) =
      F64.fin false 0x13333333333334 1020 := by decide!

/-- The square root `math.Sqrt(2)` is `0x3FF6A09E667F3BCD`. -/
theorem check_sqrt_two :
    (F64.ofInt 2).sqrt = F64.fin false 0x16A09E667F3BCD 1022 := by decide!

/-- The largest `int64` rounds up to `2 ^ 63`, and `2 ^ 53 + 1` down to `2 ^ 53`
(a tie, to even). -/
theorem check_ofInt_rounds :
    F64.ofInt 9223372036854775807 = F64.fin false (2 ^ 52) 1085 ∧
    F64.ofInt 9007199254740993 = F64.fin false (2 ^ 52) 1075 := by decide!

/-- Half of the least subnormal is a tie and goes to the even `0`; adding half a unit
in the last place to the largest finite value overflows to `+∞`. -/
theorem check_ties_and_overflow :
    (F64.fin false 1 0).div (F64.ofInt 2) = F64.zero ∧
    (F64.fin false 3 0).div (F64.ofInt 2) = F64.fin false 2 0 ∧
    (F64.fin false (2 ^ 53 - 1) 2045).add (F64.fin false (2 ^ 52) 1992) = F64.inf false ∧
    (F64.fin false (2 ^ 53 - 1) 2045).add (F64.fin false (2 ^ 52) 1991) =
      F64.fin false (2 ^ 53 - 1) 2045 := by decide!

/-- Division by zero: `0 / 0` is NaN, `1 / 0` is `+∞`, `-1 / 0` is `-∞`; and
`∞ - ∞` is NaN. -/
theorem check_special_values :
    (F64.ofInt 0).div (F64.ofInt 0) = F64.nan ∧
    (F64.ofInt 1).div (F64.ofInt 0) = F64.inf false ∧
    (F64.ofInt (-1)).div (F64.ofInt 0) = F64.inf true ∧
    (F64.inf false).sub (F64.inf false) = F64.nan := by decide!

namespace F64

theorem lt_iff (x y : F64) : x.lt y = true ↔
    x.isNaN = false ∧ y.isNaN = false ∧
      (x.cls < y.cls ∨ (x.cls = y.cls ∧ x.sval < y.sval)) := by
  simp [lt, and_assoc]

theorem le_iff (x y : F64) : x.le y = true ↔
    x.isNaN = false ∧ y.isNaN = false ∧
      (x.cls < y.cls ∨ (x.cls = y.cls ∧ x.sval ≤ y.sval)) := by
  simp [le, and_assoc]

theorem eq_iff (x y : F64) : x.eq y = true ↔
    x.isNaN = false ∧ y.isNaN = false ∧ x.cls = y.cls ∧ x.sval = y.sval := by
  simp [eq, and_assoc]

theorem lt_eq_false_iff (x y : F64) : x.lt y = false ↔
    ¬ (x.isNaN = false ∧ y.isNaN = false ∧
      (x.cls < y.cls ∨ (x.cls = y.cls ∧ x.sval < y.sval))) := by
  rw [← lt_iff]; simp

theorem le_refl (x : F64) (h : x.isNaN = false) : x.le x = true := by
  rw [le_iff]; exact ⟨h, h, Or.inr ⟨rfl, Int.le_refl _⟩⟩

theorem eq_refl (x : F64) (h : x.isNaN = false) : x.eq x = true := by
  rw [eq_iff]; exact ⟨h, h, rfl, rfl⟩

theorem le_trans (x y z : F64) (h1 : x.le y = true) (h2 : y.le z = true) :
    x.le z = true := by
  rw [le_iff] at *
  obtain ⟨a, b, c⟩ := h1
  obtain ⟨_, d, e⟩ := h2
  exact ⟨a, d, by omega⟩

theorem le_of_lt (x y : F64) (h : x.lt y = true) : x.le y = true := by
  rw [lt_iff] at h; rw [le_iff]
  obtain ⟨a, b, c⟩ := h
  exact ⟨a, b, by omega⟩

theorem le_of_lt_eq_false (x y : F64) (hx : x.isNaN = false) (hy : y.isNaN = false)
    (h : x.lt y = false) : y.le x = true := by
  rw [lt_eq_false_iff] at h; rw [le_iff]
  refine ⟨hy, hx, ?_⟩
  have h' : ¬ (x.cls < y.cls ∨ (x.cls = y.cls ∧ x.sval < y.sval)) := fun c => h ⟨hx, hy, c⟩
  omega

theorem lt_eq_false_of_le (x y : F64) (h : x.le y = true) : y.lt x = false := by
  rw [le_iff] at h; rw [lt_eq_false_iff]
  rintro ⟨_, _, c⟩
  omega

theorem lt_of_lt_of_lt (x y z : F64) (h1 : x.lt y = true) (h2 : y.lt z = true) :
    x.lt z = true := by
  rw [lt_iff] at *
  obtain ⟨a, b, c⟩ := h1
  obtain ⟨_, d, e⟩ := h2
  exact ⟨a, d, by omega⟩

theorem lt_of_le_of_lt (x y z : F64) (h1 : x.le y = true) (h2 : y.lt z = true) :
    x.lt z = true := by
  rw [le_iff] at h1; rw [lt_iff] at *
  obtain ⟨a, b, c⟩ := h1
  obtain ⟨_, d, e⟩ := h2
  exact ⟨a, d, by omega⟩

theorem isNaN_of_lt (x y : F64) (h : x.lt y = true) : y.isNaN = false :=
  ((lt_iff x y).1 h).2.1

theorem eq_of_le_of_le (x y : F64) (h1 : x.le y = true) (h2 : y.le x = true) :
    x.eq y = true := by
  rw [le_iff] at h1 h2; rw [eq_iff]
  obtain ⟨a, b, c⟩ := h1
  obtain ⟨_, _, e⟩ := h2
  exact ⟨a, b, by omega, by omega⟩

end F64

/-! ## The loops of the statistics -/

/-- The running max of the first loop, started at a value that is not NaN: it is not
NaN, not below the start, no sample is greater than it, and it is the start or one of
the samples. -/
theorem sumMaxLoop_max (xs : List F64) :
    ∀ (sum m0 : F64), m0.isNaN = false →
      (sumMaxLoop xs (sum, m0)).2.isNaN = false ∧
      m0.le (sumMaxLoop xs (sum, m0)).2 = true ∧
      (∀ x ∈ xs, (sumMaxLoop xs (sum, m0)).2.lt x = false) ∧
      ((sumMaxLoop xs (sum, m0)).2 = m0 ∨ (sumMaxLoop xs (sum, m0)).2 ∈ xs) := by
  induction xs with
  | nil =>
    intro sum m0 hm
    exact ⟨hm, F64.le_refl m0 hm, by simp, Or.inl rfl⟩
  | cons r rest ih =>
    intro sum m0 hm
    unfold sumMaxLoop
    by_cases hg : r.gt m0 = true
    · rw [if_pos hg]
      have hr : r.isNaN = false := F64.isNaN_of_lt _ _ hg
      obtain ⟨a, b, c, d⟩ := ih (sum.add r) r hr
      refine ⟨a, F64.le_trans _ _ _ (F64.le_of_lt _ _ hg) b, ?_, ?_⟩
      · intro x hxm
        rcases List.mem_cons.1 hxm with h | h
        · rw [h]; exact F64.lt_eq_false_of_le _ _ b
        · exact c x h
      · rcases d with d | d
        · exact Or.inr (by rw [d]; exact List.mem_cons_self _ _)
        · exact Or.inr (List.mem_cons_of_mem _ d)
    · rw [if_neg hg]
      have hg' : m0.lt r = false := by simpa [F64.gt] using hg
      obtain ⟨a, b, c, d⟩ := ih (sum.add r) m0 hm
      refine ⟨a, b, ?_, ?_⟩
      · intro x hxm
        rcases List.mem_cons.1 hxm with h | h
        · rw [h]
          by_contra hc
          have hlt := F64.lt_of_le_of_lt _ _ _ b (by simpa using hc)
          rw [hg'] at hlt
          exact absurd hlt (by decide)
        · exact c x h
      · rcases d with d | d
        · exact Or.inl d
        · exact Or.inr (List.mem_cons_of_mem _ d)

theorem rpsResult_of_ne_nil (xs : List F64) (h : xs ≠ []) :
    rpsResult xs =
      ((sumMaxLoop xs (F64.zero, F64.zero)).1.div (F64.ofInt xs.length),
       ((sum2Loop ((sumMaxLoop xs (F64.zero, F64.zero)).1.div (F64.ofInt xs.length)) xs
          F64.zero).div (F64.ofInt ((xs.length : Int) - 1))).sqrt,
       (sumMaxLoop xs (F64.zero, F64.zero)).2) := by
  unfold rpsResult
  have hl : ¬ ((xs.length : Int) = 0) := by
    cases xs with
    | nil => exact absurd rfl h
    | cons a l => simp; omega
  simp only [if_neg hl]

theorem latencySumMaxLoop_eq (ls : List Int) : ∀ (acc : F64 × F64),
    latencySumMaxLoop ls acc = sumMaxLoop (ls.map toMillis) acc := by
  induction ls with
  | nil => intro acc; rfl
  | cons l rest ih =>
    intro acc
    obtain ⟨sum, max⟩ := acc
    simp only [latencySumMaxLoop, List.map_cons, sumMaxLoop, toMillis]
    exact ih _

theorem latencySum2Loop_eq (avg : F64) (ls : List Int) : ∀ (sum2 : F64),
    latencySum2Loop avg ls sum2 = sum2Loop avg (ls.map toMillis) sum2 := by
  induction ls with
  | nil => intro sum2; rfl
  | cons l rest ih =>
    intro sum2
    simp only [latencySum2Loop, List.map_cons, sum2Loop, toMillis]
    exact ih _

/-- The function `latencyResult` is `rpsResult` on the latencies in milliseconds. -/
theorem latencyResult_eq_rpsResult (ls : List Int) :
    latencyResult ls = rpsResult (ls.map toMillis) := by
  unfold latencyResult rpsResult
  simp only [latencySumMaxLoop_eq, latencySum2Loop_eq, List.length_map]

theorem sumMaxLoop_sum (xs : List F64) : ∀ (sum m0 : F64),
    (sumMaxLoop xs (sum, m0)).1 = xs.foldl F64.add sum := by
  induction xs with
  | nil => intro sum m0; rfl
  | cons r rest ih =>
    intro sum m0
    simp only [sumMaxLoop, List.foldl_cons]
    exact ih _ _

theorem sum2Loop_eq (avg : F64) (xs : List F64) : ∀ (sum2 : F64),
    sum2Loop avg xs sum2 =
      (xs.map (fun x => (avg.sub x).mul (avg.sub x))).foldl F64.add sum2 := by
  induction xs with
  | nil => intro sum2; rfl
  | cons r rest ih =>
    intro sum2
    simp only [sum2Loop, List.map_cons, List.foldl_cons]
    exact ih _

/-- On a non-empty series `rpsResult` returns the batch average and the batch (sample)
standard deviation. -/
theorem rpsResult_eq_batch (xs : List F64) (h : xs ≠ []) :
    (rpsResult xs).1 = batchAvg xs ∧ (rpsResult xs).2.1 = batchStdev xs := by
  rw [rpsResult_of_ne_nil xs h]
  refine ⟨?_, ?_⟩
  · simp only [batchAvg, batchSum, sumMaxLoop_sum]
  · simp only [batchStdev, batchAvg, batchSum, sumMaxLoop_sum, sum2Loop_eq]

theorem ofInt_thousand : F64.ofInt 1000 = F64.fin false (1000 * 2 ^ 43) 1031 := by decide!

theorem ofInt_shape (i : Int) :
    F64.ofInt i = F64.inf (decide (i < 0)) ∨ ∃ m e, F64.ofInt i = F64.fin (decide (i < 0)) m e :=
  F64.round_shape _ _ _

/-- A latency in milliseconds is never NaN, and has the sign of the latency. -/
theorem toMillis_shape (l : Int) :
    toMillis l = F64.inf (decide (l < 0)) ∨ ∃ m e, toMillis l = F64.fin (decide (l < 0)) m e := by
  unfold toMillis
  rw [ofInt_thousand]
  rcases ofInt_shape l with h | ⟨m, e, h⟩
  · rw [h]; left; simp only [F64.div, Bool.xor_false]
  · rw [h]
    simp only [F64.div]
    rw [if_neg (by decide), Bool.xor_false]
    exact F64.round_shape _ _ _

theorem toMillis_isNaN (l : Int) : (toMillis l).isNaN = false := by
  rcases toMillis_shape l with h | ⟨m, e, h⟩ <;> rw [h] <;> rfl

theorem toMillis_nonneg (l : Int) (h : 0 ≤ l) : F64.zero.le (toMillis l) = true := by
  have hs : decide (l < 0) = false := by simp; omega
  rcases toMillis_shape l with h | ⟨m, e, h⟩ <;> rw [h, hs, F64.le_iff]
  · simp [F64.isNaN, F64.zero, F64.cls]
  · simp [F64.isNaN, F64.zero, F64.cls, F64.sval]

theorem rpsResult_max_isMaximumOf (xs : List F64)
    (hpos : ∃ x ∈ xs, F64.zero.le x = true) : IsMaximumOf (rpsResult xs).2.2 xs := by
  obtain ⟨x0, hx0, h0⟩ := hpos
  have hne : xs ≠ [] := by
    intro h; rw [h] at hx0; exact absurd hx0 (List.not_mem_nil _)
  rw [rpsResult_of_ne_nil xs hne]
  obtain ⟨a, b, c, d⟩ := sumMaxLoop_max xs F64.zero F64.zero rfl
  refine ⟨?_, c⟩
  rcases d with d | d
  · refine ⟨x0, hx0, ?_⟩
    have h1 := c x0 hx0
    have hx0n : x0.isNaN = false := ((F64.le_iff _ _).1 h0).2.1
    simp only [d] at h1 ⊢
    exact F64.eq_of_le_of_le _ _ h0 (F64.le_of_lt_eq_false _ _ rfl hx0n h1)
  · exact ⟨_, d, F64.eq_refl _ a⟩

/-! ## The claims on the statistics -/

/-- C4, as stated, fails: on the one-sample series `[-1]` the max returned by
`rpsResult` is `+0`, which is not the maximum element `-1`; likewise `latencyResult`
on the latency `-1000` (that is `-1` ms) returns the max `+0`. -/
theorem C4_max_of_negative_series_is_zero :
    (rpsResult [F64.ofInt (-1)]).2.2 = F64.zero ∧
    ¬ IsMaximumOf (rpsResult [F64.ofInt (-1)]).2.2 [F64.ofInt (-1)] ∧
    (latencyResult [-1000]).2.2 = F64.zero ∧
    ¬ IsMaximumOf (latencyResult [-1000]).2.2 [toMillis (-1000)] := by
  unfold IsMaximumOf
  decide!

/-- C4, amended: for every series of samples that holds at least one sample `>= 0`,
the max returned by `rpsResult` is the maximum element of the series; and for every
series of latencies that holds at least one latency `>= 0`, the max returned by
`latencyResult` is the maximum element of the series in milliseconds. -/
theorem C4_max_is_maximum_of_series_with_nonneg_sample :
    (∀ xs : List F64, (∃ x ∈ xs, F64.zero.le x = true) →
      IsMaximumOf (rpsResult xs).2.2 xs) ∧
    (∀ ls : List Int, (∃ l ∈ ls, 0 ≤ l) →
      IsMaximumOf (latencyResult ls).2.2 (ls.map toMillis)) := by
  refine ⟨rpsResult_max_isMaximumOf, ?_⟩
  intro ls ⟨l, hl, h0⟩
  rw [latencyResult_eq_rpsResult]
  apply rpsResult_max_isMaximumOf
  exact ⟨toMillis l, List.mem_map.2 ⟨l, hl, rfl⟩, toMillis_nonneg l h0⟩

/-- The amended C4 at the series `[-5, 7, 3]` and at the latencies `[-1000, 2000]`. -/
theorem C4_max_is_maximum_of_series_with_nonneg_sample_witness :
    IsMaximumOf (rpsResult [F64.ofInt (-5), F64.ofInt 7, F64.ofInt 3]).2.2
      [F64.ofInt (-5), F64.ofInt 7, F64.ofInt 3] ∧
    IsMaximumOf (latencyResult [-1000, 2000]).2.2 ([-1000, 2000].map toMillis) :=
  ⟨C4_max_is_maximum_of_series_with_nonneg_sample.1
      [F64.ofInt (-5), F64.ofInt 7, F64.ofInt 3] (by decide!),
   C4_max_is_maximum_of_series_with_nonneg_sample.2 [-1000, 2000] (by decide)⟩

/-- C5. `rpsResult` is the batch reference definition: the empty series gives
`(0, 0, 0)`; on every series of `n >= 2` samples the average is the sum of the samples
over `n` and the standard deviation is `sqrt (Σ (avg - x)² / (n - 1))`, the sample
formula (sums taken in order, in binary64); and `rpsResult [10, 20, 30]` has
`avg = 20`, `stdev = 10`, `max = 30`. -/
theorem C5_rpsResult_is_batch_reference :
    rpsResult [] = (F64.zero, F64.zero, F64.zero) ∧
    (∀ xs : List F64, 2 ≤ xs.length →
      (rpsResult xs).1 = batchAvg xs ∧ (rpsResult xs).2.1 = batchStdev xs) ∧
    rpsResult [F64.ofInt 10, F64.ofInt 20, F64.ofInt 30] =
      (F64.ofInt 20, F64.ofInt 10, F64.ofInt 30) := by
  refine ⟨rfl, ?_, by decide!⟩
  intro xs h
  apply rpsResult_eq_batch
  intro hnil
  rw [hnil] at h
  exact absurd h (by decide)

/-- C5 at the series `[10, 20, 30]`: the average and the standard deviation returned
are those of the batch formulas. -/
theorem C5_rpsResult_is_batch_reference_witness :
    (rpsResult [F64.ofInt 10, F64.ofInt 20, F64.ofInt 30]).1 =
      batchAvg [F64.ofInt 10, F64.ofInt 20, F64.ofInt 30] ∧
    (rpsResult [F64.ofInt 10, F64.ofInt 20, F64.ofInt 30]).2.1 =
      batchStdev [F64.ofInt 10, F64.ofInt 20, F64.ofInt 30] :=
  C5_rpsResult_is_batch_reference.2.1 [F64.ofInt 10, F64.ofInt 20, F64.ofInt 30] (by decide)

/-- C7. The latency statistics are the generic statistics over the millisecond values:
for every series of stored latencies, `latencyResult` returns what `rpsResult` returns
on the series of the values `float64(latency) / 1000`, in all three components; and
`latencyResult [1000, 2000]` has `avg = 1.5` and `max = 2`. -/
theorem C7_latencyResult_is_rpsResult_of_millis :
    (∀ ls : List Int,
      latencyResult ls =
        rpsResult (ls.map (fun x => (F64.ofInt x).div (F64.ofInt 1000)))) ∧
    (latencyResult [1000, 2000]).1 = (F64.ofInt 3).div (F64.ofInt 2) ∧
    (latencyResult [1000, 2000]).2.2 = F64.ofInt 2 :=
  ⟨latencyResult_eq_rpsResult, by decide!, by decide!⟩

namespace F64

theorem ofInt_1e3_lt_1e6 : (ofInt 1000).lt (ofInt 1000000) = true := by decide!

theorem ofInt_1e6_lt_1e9 : (ofInt 1000000).lt (ofInt 1000000000) = true := by decide!

theorem lt_eq_false_of_lt_of_le (a b v : F64) (h1 : a.lt b = true) (h2 : b.le v = true) :
    v.lt a = false := by
  rw [lt_iff] at h1; rw [le_iff] at h2; rw [lt_eq_false_iff]
  rintro ⟨_, _, c⟩
  omega

end F64

/-- C8. `formatThroughput v` is `(v, "B/s")` when `v < 1e3`, `(v / 1e3, "KB/s")` when
`1e3 <= v < 1e6`, `(v / 1e6, "MB/s")` when `1e6 <= v < 1e9` and `(v / 1e9, "GB/s")` when
`v >= 1e9`; and it maps 500 to `(500, "B/s")`, 1500 to `(1.5, "KB/s")`, 2500000 to
`(2.5, "MB/s")` and 3000000000 to `(3, "GB/s")`. -/
theorem C8_formatThroughput_scales_by_thousands :
    (∀ v : F64,
      (v.lt (F64.ofInt 1000) = true → formatThroughput v = (v, "B/s")) ∧
      ((F64.ofInt 1000).le v = true ∧ v.lt (F64.ofInt 1000000) = true →
        formatThroughput v = (v.div (F64.ofInt 1000), "KB/s")) ∧
      ((F64.ofInt 1000000).le v = true ∧ v.lt (F64.ofInt 1000000000) = true →
        formatThroughput v = (v.div (F64.ofInt 1000000), "MB/s")) ∧
      ((F64.ofInt 1000000000).le v = true →
        formatThroughput v = (v.div (F64.ofInt 1000000000), "GB/s"))) ∧
    formatThroughput (F64.ofInt 500) = (F64.ofInt 500, "B/s") ∧
    formatThroughput (F64.ofInt 1500) = ((F64.ofInt 3).div (F64.ofInt 2), "KB/s") ∧
    formatThroughput (F64.ofInt 2500000) = ((F64.ofInt 5).div (F64.ofInt 2), "MB/s") ∧
    formatThroughput (F64.ofInt 3000000000) = (F64.ofInt 3, "GB/s") := by
  refine ⟨?_, by decide!, by decide!, by decide!, by decide!⟩
  intro v
  refine ⟨?_, ?_, ?_, ?_⟩
  · intro h
    unfold formatThroughput
    rw [if_pos h]
  · intro ⟨h1, h2⟩
    have n1 := F64.lt_eq_false_of_le _ _ h1
    unfold formatThroughput
    rw [if_neg (by simp [n1]), if_pos h2]
  · intro ⟨h1, h2⟩
    have n1 := F64.lt_eq_false_of_lt_of_le _ _ _ F64.ofInt_1e3_lt_1e6 h1
    have n2 := F64.lt_eq_false_of_le _ _ h1
    unfold formatThroughput
    rw [if_neg (by simp [n1]), if_neg (by simp [n2]), if_pos h2]
  · intro h1
    have n3 := F64.lt_eq_false_of_le _ _ h1
    have n2 := F64.lt_eq_false_of_lt_of_le _ _ _ F64.ofInt_1e6_lt_1e9 h1
    have h6 : (F64.ofInt 1000000).le v = true :=
      F64.le_trans _ _ _ (F64.le_of_lt _ _ F64.ofInt_1e6_lt_1e9) h1
    have n1 := F64.lt_eq_false_of_lt_of_le _ _ _ F64.ofInt_1e3_lt_1e6 h6
    unfold formatThroughput
    rw [if_neg (by simp [n1]), if_neg (by simp [n2]), if_neg (by simp [n3])]

/-- C8 at `v = 1500`, in the case `1e3 <= v < 1e6`. -/
theorem C8_formatThroughput_scales_by_thousands_witness :
    formatThroughput (F64.ofInt 1500) = ((F64.ofInt 1500).div (F64.ofInt 1000), "KB/s") :=
  (C8_formatThroughput_scales_by_thousands.1 (F64.ofInt 1500)).2.1 (by decide!)

/-! ## The claim on the progress fraction -/

theorem log2_lt_of_lt (n k : Nat) (h0 : 0 < n) (h : n < 2 ^ k) : log2 n < k := by
  obtain ⟨a, _⟩ := log2_spec n h0
  by_contra hc
  have : 2 ^ k ≤ 2 ^ log2 n := Nat.pow_le_pow_right (by decide) (by omega)
  omega

namespace F64

theorem binade_le_of_lt (n K : Nat) (h : n < 2 ^ K) : binade n 1 ≤ K - 53 := by
  unfold binade
  rw [Nat.div_one]
  split_ifs with h1
  · omega
  · have h0 : 0 < n := lt_of_lt_of_le (Nat.two_pow_pos 53) (by omega)
    have := log2_lt_of_lt n K h0 h
    omega

theorem mul_two_pow_lt (a j k : Nat) (h : a < 2 ^ j) : a * 2 ^ k < 2 ^ (j + k) := by
  rw [pow_add]
  exact Nat.mul_lt_mul_of_pos_right h (Nat.two_pow_pos k)

theorem mul_two_pow_pos (a k : Nat) (h : 0 < a) : 0 < a * 2 ^ k :=
  Nat.mul_pos h (Nat.two_pow_pos k)

/-- The conversion of an `int64` value that is not negative is finite and not
negative, and not zero when the integer is not. -/
theorem ofInt_of_nonneg (i : Int) (h0 : 0 ≤ i) (h1 : i < 2 ^ 63) :
    ∃ m e, ofInt i = fin false m e ∧ (0 < i → 0 < m) := by
  have hs : decide (i < 0) = false := by simp; omega
  have hN := mul_two_pow_lt i.natAbs 63 1074 (by omega)
  have hb := binade_le_of_lt _ _ hN
  obtain ⟨q1, q2⟩ := binade_quotient (i.natAbs * 2 ^ 1074) 1
  obtain ⟨b1, b2⟩ := nearestEven_bounds (i.natAbs * 2 ^ 1074) (1 * 2 ^ binade (i.natAbs * 2 ^ 1074) 1)
  have hpos : 0 < i → 0 < i.natAbs * 2 ^ 1074 / (1 * 2 ^ binade (i.natAbs * 2 ^ 1074) 1) := by
    intro hi
    rcases q2 with q2 | q2
    · rw [q2]
      simp only [pow_zero, Nat.mul_one, Nat.div_one]
      exact mul_two_pow_pos i.natAbs 1074 (by omega)
    · exact lt_of_lt_of_le (Nat.two_pow_pos 52) q2
  unfold ofInt round pack
  rw [hs]
  split_ifs with c1 c2 c3
  · omega
  · exact ⟨_, _, rfl, fun _ => Nat.two_pow_pos 52⟩
  · omega
  · exact ⟨_, _, rfl, fun hi => lt_of_lt_of_le (hpos hi) b1⟩

theorem ofInt_zero : ofInt 0 = fin false 0 0 := by decide!

theorem ofInt_one : ofInt 1 = fin false (2 ^ 52) 1022 := by decide!

/-- A quotient of two `int64` values that are not negative, not both zero, is never
NaN and never negative. -/
theorem div_ofInt_shape (a b : Int) (ha : 0 ≤ a) (ha' : a < 2 ^ 63) (hb : 0 ≤ b)
    (hb' : b < 2 ^ 63) (hne : a ≠ 0 ∨ b ≠ 0) :
    (ofInt a).div (ofInt b) = inf false ∨ ∃ m e, (ofInt a).div (ofInt b) = fin false m e := by
  obtain ⟨m, e, h1, h2⟩ := ofInt_of_nonneg a ha ha'
  obtain ⟨k, f, h3, h4⟩ := ofInt_of_nonneg b hb hb'
  rw [h1, h3]
  simp only [div]
  by_cases hk : k = 0
  · have hb0 : b = 0 := by
      by_contra hc
      have := h4 (by omega)
      omega
    have hm : 0 < m := h2 (by omega)
    rw [if_pos hk, if_neg (by omega)]
    exact Or.inl rfl
  · rw [if_neg hk]
    exact round_shape _ _ _

end F64

theorem clampAtOne_inUnitInterval (p : F64)
    (hp : p = F64.inf false ∨ ∃ m e, p = F64.fin false m e) :
    InUnitInterval (clampAtOne p) := by
  have hnan : p.isNaN = false := by
    rcases hp with h | ⟨m, e, h⟩ <;> rw [h] <;> rfl
  have h0 : F64.zero.le p = true := by
    rcases hp with h | ⟨m, e, h⟩ <;> rw [h, F64.le_iff] <;>
      simp [F64.isNaN, F64.zero, F64.cls, F64.sval]
  unfold clampAtOne InUnitInterval
  by_cases hg : p.gt (F64.ofInt 1) = true
  · rw [if_pos hg]
    exact ⟨by decide!, by decide!⟩
  · rw [if_neg hg]
    have hg' : (F64.ofInt 1).lt p = false := by simpa [F64.gt] using hg
    exact ⟨h0, F64.le_of_lt_eq_false _ _ (by decide!) hnan hg'⟩

/-- C9, as stated, fails: with no planned count, a zero planned duration and zero
elapsed time the fraction is `0 / 0`, NaN, the clamp lets it through, and NaN is not
in `[0, 1]`. -/
theorem C9_percent_is_nan_when_nothing_is_planned :
    writeProcessBar { newTui with reqs := 0, elapsed := 0, count := 0, duration := 0 } =
      F64.nan ∧
    ¬ InUnitInterval
      (writeProcessBar { newTui with reqs := 0, elapsed := 0, count := 0, duration := 0 }) := by
  unfold InUnitInterval
  decide!

/-- The value handed to the progress bar never compares greater than 1, whatever the
counters and the configuration hold. -/
theorem writeProcessBar_not_gt_one (t : tui) :
    (writeProcessBar t).gt (F64.ofInt 1) = false := by
  unfold writeProcessBar
  simp only []
  split_ifs with h1 h2 h3
  · decide!
  · simpa using h2
  · decide!
  · simpa using h3

/-- C9, amended: the value `writeProcessBar` hands to the progress bar never exceeds 1
(the comparison `> 1.0` is false of it for every input); and for `int64` values `reqs`,
`elapsed`, `count`, `duration` that are not negative, and not all of `count`,
`duration`, `elapsed` zero, that value is the clamp at 1 of `reqs / count` when a count
is configured (`count != 0`) and of `elapsed / duration` otherwise, and it lies in
`[0, 1]`. -/
theorem C9_percent_in_unit_interval :
    (∀ t : tui, (writeProcessBar t).gt (F64.ofInt 1) = false) ∧
    (∀ t : tui, (0 ≤ t.reqs ∧ t.reqs < 2 ^ 63) → (0 ≤ t.elapsed ∧ t.elapsed < 2 ^ 63) →
      (0 ≤ t.count ∧ t.count < 2 ^ 63) → (0 ≤ t.duration ∧ t.duration < 2 ^ 63) →
      (t.count ≠ 0 ∨ t.duration ≠ 0 ∨ t.elapsed ≠ 0) →
      (t.count ≠ 0 →
        writeProcessBar t = clampAtOne ((F64.ofInt t.reqs).div (F64.ofInt t.count))) ∧
      (t.count = 0 →
        writeProcessBar t =
          clampAtOne ((F64.ofInt t.elapsed).div (F64.ofInt t.duration))) ∧
      InUnitInterval (writeProcessBar t)) := by
  refine ⟨writeProcessBar_not_gt_one, ?_⟩
  intro t hr he hc hd hne
  have e1 : t.count ≠ 0 →
      writeProcessBar t = clampAtOne ((F64.ofInt t.reqs).div (F64.ofInt t.count)) := by
    intro h; unfold writeProcessBar clampAtOne; simp only [if_pos h]
  have e2 : t.count = 0 →
      writeProcessBar t = clampAtOne ((F64.ofInt t.elapsed).div (F64.ofInt t.duration)) := by
    intro h; unfold writeProcessBar clampAtOne; simp only [if_neg (not_not.2 h)]
  refine ⟨e1, e2, ?_⟩
  by_cases h : t.count = 0
  · rw [e2 h]
    apply clampAtOne_inUnitInterval
    exact F64.div_ofInt_shape _ _ he.1 he.2 hd.1 hd.2 (by omega)
  · rw [e1 h]
    apply clampAtOne_inUnitInterval
    exact F64.div_ofInt_shape _ _ hr.1 hr.2 hc.1 hc.2 (Or.inr h)

/-- The amended C9 with 150 requests completed of 100 planned: the fraction 1.5 is
clamped to 1. -/
theorem C9_percent_in_unit_interval_witness :
    InUnitInterval (writeProcessBar { newTui with reqs := 150, count := 100 }) ∧
    writeProcessBar { newTui with reqs := 150, count := 100 } = F64.ofInt 1 :=
  ⟨(C9_percent_in_unit_interval.2 { newTui with reqs := 150, count := 100 }
      (by decide) (by decide) (by decide) (by decide) (by decide)).2.2, by decide!⟩

/-! ## The single-sample boundary -/

namespace F64

theorem round_zero (s : Bool) (d : Nat) (hd : 0 < d) : round s 0 d = fin s 0 0 := by
  have hb : binade 0 d = 0 := by
    unfold binade; rw [Nat.zero_div, if_pos (Nat.two_pow_pos 53)]
  have hn : nearestEven 0 (d * 2 ^ 0) = 0 := by
    unfold nearestEven
    rw [Nat.zero_mod, Nat.zero_div, if_neg]
    simp only [pow_zero, Nat.mul_one, Nat.mul_zero]
    omega
  unfold round
  rw [hb, hn]
  rfl

/-- Adding a binary64 value to `+0` gives the value back, `-0` turning into `+0`. -/
theorem zero_add_canonical (s : Bool) (m e : Nat) (h : (fin s m e).IsCanonical) :
    zero.add (fin s m e) = fin (s && decide (m ≠ 0)) m e := by
  have hr := round_canonical_self s m e h
  obtain ⟨h1, h2, h3⟩ := (isCanonical_fin s m e).1 h
  cases s with
  | false =>
    simp only [zero, add, if_true, Nat.zero_mul, Nat.zero_add, Bool.false_and]
    exact hr
  | true =>
    simp only [zero, add, Nat.zero_mul, Bool.true_and]
    rw [if_neg (by decide)]
    by_cases hm : m = 0
    · have he : e = 0 := by
        rcases h3 with h3 | h3
        · exact h3
        · have : 0 < 2 ^ 52 := Nat.two_pow_pos 52
          omega
      subst hm; subst he
      simp
    · have hpos : 0 < m * 2 ^ e := Nat.mul_pos (by omega) (Nat.two_pow_pos _)
      rw [if_neg (by omega), if_neg (by omega), Nat.sub_zero]
      simp only [hm, ne_eq, not_false_eq_true, decide_True]
      exact hr

/-- Dividing a binary64 value by `1` gives the value back. -/
theorem div_one_canonical (s : Bool) (m e : Nat) (h : (fin s m e).IsCanonical) :
    (fin s m e).div (ofInt 1) = fin s m e := by
  rw [ofInt_one]
  simp only [div]
  rw [if_neg (by have := Nat.two_pow_pos 52; omega), Bool.xor_false]
  have hd : 2 ^ 52 * 2 ^ 1022 = 1 * 2 ^ 1074 := by rw [← pow_add, Nat.one_mul]
  rw [hd, round_scale _ _ _ _ (Nat.two_pow_pos _)]
  exact round_canonical_self s m e h

/-- A binary64 value minus a value of the same magnitude and the same sign, or minus
itself with both zero, is `+0`. -/
theorem sub_same_magnitude (s' s : Bool) (m e : Nat) (h : s' = s ∨ (m = 0 ∧ s' = false)) :
    (fin s' m e).sub (fin s m e) = zero := by
  rcases h with h | ⟨hm, hs⟩
  · subst h
    cases s' <;> simp [sub, neg, add, zero]
  · subst hm; subst hs
    cases s <;> simp [sub, neg, add, zero, round_zero]

theorem mul_zero_zero : zero.mul zero = zero := by decide!

theorem add_zero_zero : zero.add zero = zero := by decide!

end F64

theorem rpsResult_singleton (x : F64) :
    rpsResult [x] =
      ((F64.zero.add x).div (F64.ofInt 1),
       ((F64.zero.add ((((F64.zero.add x).div (F64.ofInt 1)).sub x).mul
          (((F64.zero.add x).div (F64.ofInt 1)).sub x))).div (F64.ofInt 0)).sqrt,
       if x.gt F64.zero then x else F64.zero) := by
  rw [rpsResult_of_ne_nil [x] (by simp)]
  rfl

/-- One sample, not NaN: the average is the sample, the standard deviation is NaN, and
the max is the sample when the sample is `>= 0`. -/
theorem rpsResult_single_sample (x : F64) (hc : x.IsCanonical) (hn : x.isNaN = false) :
    (rpsResult [x]).1.eq x = true ∧ (rpsResult [x]).2.1 = F64.nan ∧
      (F64.zero.le x = true → (rpsResult [x]).2.2.eq x = true) := by
  have hmax : F64.zero.le x = true →
      (if x.gt F64.zero then x else F64.zero).eq x = true := by
    intro h0
    by_cases hg : x.gt F64.zero = true
    · rw [if_pos hg]; exact F64.eq_refl x hn
    · rw [if_neg hg]
      have hg' : F64.zero.lt x = false := by simpa [F64.gt] using hg
      exact F64.eq_of_le_of_le _ _ h0 (F64.le_of_lt_eq_false _ _ rfl hn hg')
  rw [rpsResult_singleton]
  cases x with
  | nan => exact absurd hn (by decide)
  | inf s =>
    refine ⟨?_, ?_, hmax⟩
    · cases s <;> decide!
    · cases s <;> decide!
  | fin s m e =>
    have hsum := F64.zero_add_canonical s m e hc
    have hc' : (F64.fin (s && decide (m ≠ 0)) m e).IsCanonical := hc
    have havg := F64.div_one_canonical _ m e hc'
    have hdiff : (F64.fin (s && decide (m ≠ 0)) m e).sub (F64.fin s m e) = F64.zero := by
      apply F64.sub_same_magnitude
      by_cases hm : m = 0
      · right; simp [hm]
      · left; simp [hm]
    simp only [hsum, havg, hdiff, F64.mul_zero_zero, F64.add_zero_zero, F64.ofInt_zero]
    refine ⟨?_, by decide, hmax⟩
    rw [F64.eq_iff]
    refine ⟨rfl, rfl, rfl, ?_⟩
    by_cases hm : m = 0
    · subst hm; cases s <;> simp [F64.sval]
    · simp [hm]

theorem toMillis_canonical (l : Int) : (toMillis l).IsCanonical :=
  F64.div_canonical _ _

/-- C6, as stated, fails: on the one-sample series `[-3]` the max returned by
`rpsResult` is `+0`, not the sample; likewise `latencyResult` on the latency `-2000`
(that is `-2` ms). -/
theorem C6_single_negative_sample_max_is_zero :
    (rpsResult [F64.ofInt (-3)]).2.2 = F64.zero ∧
    (rpsResult [F64.ofInt (-3)]).2.2.eq (F64.ofInt (-3)) = false ∧
    (latencyResult [-2000]).2.2 = F64.zero ∧
    (latencyResult [-2000]).2.2.eq (toMillis (-2000)) = false := by
  decide!

/-- C6, amended: for every binary64 sample `x` that is not NaN, `rpsResult [x]` returns
`avg == x` and the standard deviation NaN (the division `0 / 0` by `n - 1 = 0`), and
`max == x` when `x >= 0`; for every latency `l`, with `x = float64(l) / 1000`,
`latencyResult [l]` returns `avg == x` and the standard deviation NaN, and `max == x`
when `l >= 0`. -/
theorem C6_single_sample_boundary :
    (∀ x : F64, x.IsCanonical → x.isNaN = false →
      (rpsResult [x]).1.eq x = true ∧ (rpsResult [x]).2.1 = F64.nan ∧
        (F64.zero.le x = true → (rpsResult [x]).2.2.eq x = true)) ∧
    (∀ l : Int,
      (latencyResult [l]).1.eq (toMillis l) = true ∧ (latencyResult [l]).2.1 = F64.nan ∧
        (0 ≤ l → (latencyResult [l]).2.2.eq (toMillis l) = true)) := by
  refine ⟨rpsResult_single_sample, ?_⟩
  intro l
  rw [latencyResult_eq_rpsResult]
  obtain ⟨a, b, c⟩ := rpsResult_single_sample (toMillis l) (toMillis_canonical l)
    (toMillis_isNaN l)
  exact ⟨a, b, fun h => c (toMillis_nonneg l h)⟩

/-- The amended C6 at the sample `3` and at the latency `2000`. -/
theorem C6_single_sample_boundary_witness :
    ((rpsResult [F64.ofInt 3]).1.eq (F64.ofInt 3) = true ∧
      (rpsResult [F64.ofInt 3]).2.1 = F64.nan ∧
      (rpsResult [F64.ofInt 3]).2.2.eq (F64.ofInt 3) = true) ∧
    (latencyResult [2000]).2.2.eq (toMillis 2000) = true :=
  ⟨⟨(C6_single_sample_boundary.1 (F64.ofInt 3) (by decide!) (by decide!)).1,
    (C6_single_sample_boundary.1 (F64.ofInt 3) (by decide!) (by decide!)).2.1,
    (C6_single_sample_boundary.1 (F64.ofInt 3) (by decide!) (by decide!)).2.2 (by decide!)⟩,
   (C6_single_sample_boundary.2 2000).2.2 (by decide)⟩

end Pit
